import Mathlib

/-!
Verification development for `Joel_Swenson_gmail-gcal-interface-cli.py`, a
script that reads confirmation emails and creates Google Calendar events.

The embedding works over `List Char` (Python `str` values).  The pure string
processing of the script (`str.split`, `str.strip`, `datetime.strptime` with
the four hard-coded formats, `datetime.strftime`, the 1-hour window
arithmetic, the naive-`astimezone` conversion) is translated function by
function.  The external Gmail/Calendar collaborators are abstract structures
(`MailService`, `CalendarService`) over an abstract calendar state type, and
every call the script makes to the calendar is recorded in an explicit call
log so that claims about "no insert happened" are directly expressible.
-/

/-- Convert a string literal to the `List Char` representation used
throughout this development (Python strings are modelled as `List Char`). -/
def s2l (s : String) : List Char := s.data

/-- The whitespace class used by Python's `str.strip` and by `\s` in the
regexes `_strptime` builds (restricted to the ASCII whitespace characters;
the script's data never contains non-ASCII whitespace). -/
def isSpacePy (c : Char) : Bool :=
  c = ' ' ∨ c = '\t' ∨ c = '\n' ∨ c = '\x0d' ∨ c = '\x0b' ∨ c = '\x0c'

/-- Python `str.strip()`: drop leading and trailing whitespace. -/
def strip (s : List Char) : List Char :=
  ((s.dropWhile isSpacePy).reverse.dropWhile isSpacePy).reverse

/-- `dropPref pat s` returns `some r` iff `s = pat ++ r` (case sensitive). -/
def dropPref : List Char → List Char → Option (List Char)
  | [], s => some s
  | _ :: _, [] => none
  | p :: ps, c :: cs => if c = p then dropPref ps cs else none

/-- Helper for `splitOnF`: prepend a character to the first fragment. -/
def consHead (c : Char) : List (List Char) → List (List Char)
  | [] => [[c]]
  | g :: t => (c :: g) :: t

/-- Fuel-indexed worker for `splitOn` (fuel makes the recursion structural,
so concrete instances reduce inside the kernel). -/
def splitOnF : Nat → List Char → List Char → List (List Char)
  | 0, _, s => [s]
  | n + 1, sep, s =>
    match dropPref sep s with
    | some rest => if sep = [] then [s] else [] :: splitOnF n sep rest
    | none =>
      match s with
      | [] => [[]]
      | c :: cs => consHead c (splitOnF n sep cs)

/-- Python `s.split(sep)` for a non-empty separator: split on every
occurrence, scanning left to right without overlap.  (Python raises on an
empty separator; we return `[s]` in that unused case.) -/
def splitOn (sep s : List Char) : List (List Char) :=
  splitOnF (s.length + 1) sep s

/-- Index of the first occurrence of `sep` in `s`, if any. -/
def findOccIdx (sep : List Char) : List Char → Option Nat
  | [] => if (dropPref sep []).isSome then some 0 else none
  | c :: cs =>
    if (dropPref sep (c :: cs)).isSome then some 0
    else
      match findOccIdx sep cs with
      | some j => some (j + 1)
      | none => none

/-- `sep` occurs in `s` starting at index `i`. -/
def occursAtB (sep s : List Char) (i : Nat) : Bool :=
  (dropPref sep (s.drop i)).isSome

/-- `sep` occurs somewhere in `s`. -/
def hasOccB (sep s : List Char) : Bool :=
  (findOccIdx sep s).isSome

/-- Number of (non-overlapping, left-to-right) occurrences of `sep` in `s`:
one less than the number of fragments `split` produces. -/
def countOcc (sep s : List Char) : Nat :=
  (splitOn sep s).length - 1

/-- A parsed naive timestamp (Python `datetime.datetime` restricted to the
fields the script uses; `strptime` leaves seconds/microseconds at 0). -/
structure DateTime where
  year : Nat
  month : Nat
  day : Nat
  hour : Nat
  minute : Nat
deriving DecidableEq, Repr

/-- Gregorian leap-year rule (as used by Python's `datetime`). -/
def isLeap (y : Nat) : Bool :=
  y % 4 = 0 ∧ (y % 100 ≠ 0 ∨ y % 400 = 0)

/-- Length of month `m` of year `y` (as validated by `datetime.datetime`). -/
def daysInMonth (y m : Nat) : Nat :=
  if m = 2 then (if isLeap y then 29 else 28)
  else if m = 4 ∨ m = 6 ∨ m = 9 ∨ m = 11 then 30
  else 31

/-- One token of a `strptime`/`strftime` format string: a literal character,
a whitespace run (a literal space in the format, matched as `\s+` by
`_strptime`), or one of the directives `%A %a %B %b %d %Y %I %M %p`. -/
inductive FmtTok where
  | lit : Char → FmtTok
  | ws : FmtTok
  | dayFull : FmtTok
  | dayAbbr : FmtTok
  | monFull : FmtTok
  | monAbbr : FmtTok
  | dayNum : FmtTok
  | year4 : FmtTok
  | hour12 : FmtTok
  | minNum : FmtTok
  | ampm : FmtTok
deriving DecidableEq, Repr

/-- ASCII lower-casing, as effected by `re.IGNORECASE` name matching in
`_strptime` (locale names are stored lower-cased and matched ignoring case). -/
def lowerChar (c : Char) : Char :=
  if 'A' ≤ c ∧ c ≤ 'Z' then Char.ofNat (c.toNat + 32) else c

/-- Case-insensitive literal match: `icDrop pat s = some r` iff `s` starts
with `pat` (compared lower-cased) and `r` is the rest.  `pat` is stored
lower-cased, mirroring `LocaleTime`. -/
def icDrop : List Char → List Char → Option (List Char)
  | [], s => some s
  | _ :: _, [] => none
  | p :: ps, c :: cs => if lowerChar c = p then icDrop ps cs else none

/-- Try the alternatives of a name class in order (the order `_strptime`
uses: sorted by length, longest first, stable); the associated value is the
value `strptime` assigns (weekday index / month number). -/
def matchName : List (List Char × Nat) → List Char → Option (Nat × List Char)
  | [], _ => none
  | (nm, v) :: tbl, s =>
    match icDrop nm s with
    | some r => some (v, r)
    | none => matchName tbl s

/-- `%A` alternatives: full weekday names, length-sorted as in `TimeRE`. -/
def dayFullTbl : List (List Char × Nat) :=
  [(['w','e','d','n','e','s','d','a','y'], 2),
   (['s','a','t','u','r','d','a','y'], 5),
   (['t','h','u','r','s','d','a','y'], 3),
   (['t','u','e','s','d','a','y'], 1),
   (['m','o','n','d','a','y'], 0),
   (['f','r','i','d','a','y'], 4),
   (['s','u','n','d','a','y'], 6)]

/-- `%a` alternatives: abbreviated weekday names. -/
def dayAbbrTbl : List (List Char × Nat) :=
  [(['m','o','n'], 0), (['t','u','e'], 1), (['w','e','d'], 2),
   (['t','h','u'], 3), (['f','r','i'], 4), (['s','a','t'], 5),
   (['s','u','n'], 6)]

/-- `%B` alternatives: full month names, length-sorted as in `TimeRE`. -/
def monFullTbl : List (List Char × Nat) :=
  [(['s','e','p','t','e','m','b','e','r'], 9),
   (['f','e','b','r','u','a','r','y'], 2),
   (['n','o','v','e','m','b','e','r'], 11),
   (['d','e','c','e','m','b','e','r'], 12),
   (['j','a','n','u','a','r','y'], 1),
   (['o','c','t','o','b','e','r'], 10),
   (['a','u','g','u','s','t'], 8),
   (['m','a','r','c','h'], 3),
   (['a','p','r','i','l'], 4),
   (['j','u','n','e'], 6),
   (['j','u','l','y'], 7),
   (['m','a','y'], 5)]

/-- `%b` alternatives: abbreviated month names. -/
def monAbbrTbl : List (List Char × Nat) :=
  [(['j','a','n'], 1), (['f','e','b'], 2), (['m','a','r'], 3),
   (['a','p','r'], 4), (['m','a','y'], 5), (['j','u','n'], 6),
   (['j','u','l'], 7), (['a','u','g'], 8), (['s','e','p'], 9),
   (['o','c','t'], 10), (['n','o','v'], 11), (['d','e','c'], 12)]

/-- Decimal digit predicate (`\d` over the script's ASCII data). -/
def isDig (c : Char) : Prop := '0' ≤ c ∧ c ≤ '9'

instance (c : Char) : Decidable (isDig c) := by unfold isDig; infer_instance

/-- Numeric value of a digit character. -/
def digitVal (c : Char) : Nat := c.toNat - 48

/-- `%d`: the regex `3[01]|[12]\d|0[1-9]|[1-9]`.  In the four formats `%d`
is always followed by a literal `,`, so the regex's backtracking can never
turn a viable two-digit match into a one-digit one; first-match is exact. -/
def matchDay : List Char → Option (Nat × List Char)
  | c1 :: c2 :: rest =>
    if (c1 = '3' ∧ (c2 = '0' ∨ c2 = '1')) ∨
       ((c1 = '1' ∨ c1 = '2') ∧ isDig c2) ∨
       (c1 = '0' ∧ '1' ≤ c2 ∧ c2 ≤ '9') then
      some (digitVal c1 * 10 + digitVal c2, rest)
    else if '1' ≤ c1 ∧ c1 ≤ '9' then some (digitVal c1, c2 :: rest)
    else none
  | [c1] => if '1' ≤ c1 ∧ c1 ≤ '9' then some (digitVal c1, []) else none
  | [] => none

/-- `%I`: the regex `1[0-2]|0[1-9]|[1-9]` (followed by `:` in the formats). -/
def matchHour : List Char → Option (Nat × List Char)
  | c1 :: c2 :: rest =>
    if (c1 = '1' ∧ '0' ≤ c2 ∧ c2 ≤ '2') ∨ (c1 = '0' ∧ '1' ≤ c2 ∧ c2 ≤ '9') then
      some (digitVal c1 * 10 + digitVal c2, rest)
    else if '1' ≤ c1 ∧ c1 ≤ '9' then some (digitVal c1, c2 :: rest)
    else none
  | [c1] => if '1' ≤ c1 ∧ c1 ≤ '9' then some (digitVal c1, []) else none
  | [] => none

/-- `%M`: the regex `[0-5]\d|\d` (followed by a space in the formats). -/
def matchMin : List Char → Option (Nat × List Char)
  | c1 :: c2 :: rest =>
    if ('0' ≤ c1 ∧ c1 ≤ '5') ∧ isDig c2 then
      some (digitVal c1 * 10 + digitVal c2, rest)
    else if isDig c1 then some (digitVal c1, c2 :: rest)
    else none
  | [c1] => if isDig c1 then some (digitVal c1, []) else none
  | [] => none

/-- `%Y`: the regex `\d\d\d\d` (exactly four digits). -/
def matchYear : List Char → Option (Nat × List Char)
  | c1 :: c2 :: c3 :: c4 :: rest =>
    if isDig c1 ∧ isDig c2 ∧ isDig c3 ∧ isDig c4 then
      some (((digitVal c1 * 10 + digitVal c2) * 10 + digitVal c3) * 10 +
              digitVal c4, rest)
    else none
  | _ => none

/-- `%p`: `AM`/`PM`, matched case-insensitively; result is the PM flag. -/
def matchAmPm (s : List Char) : Option (Bool × List Char) :=
  match icDrop ['a', 'm'] s with
  | some r => some (false, r)
  | none =>
    match icDrop ['p', 'm'] s with
    | some r => some (true, r)
    | none => none

/-- The fields accumulated while matching a format (initial values are
irrelevant: every format of the script sets each field exactly once). -/
structure RawFields where
  wd : Nat
  month : Nat
  day : Nat
  year : Nat
  hr12 : Nat
  minute : Nat
  pm : Bool
deriving DecidableEq, Repr

/-- Initial field record. -/
def f0 : RawFields := ⟨0, 0, 0, 0, 0, 0, false⟩

/-- Match one format token against the input, updating the fields. -/
def matchToken : FmtTok → List Char → RawFields → Option (RawFields × List Char)
  | .lit c, s, f =>
    match s with
    | x :: rest => if x = c then some (f, rest) else none
    | [] => none
  | .ws, s, f =>
    match s with
    | x :: rest =>
      if isSpacePy x then some (f, rest.dropWhile isSpacePy) else none
    | [] => none
  | .dayFull, s, f =>
    (matchName dayFullTbl s).map (fun p => ({ f with wd := p.1 }, p.2))
  | .dayAbbr, s, f =>
    (matchName dayAbbrTbl s).map (fun p => ({ f with wd := p.1 }, p.2))
  | .monFull, s, f =>
    (matchName monFullTbl s).map (fun p => ({ f with month := p.1 }, p.2))
  | .monAbbr, s, f =>
    (matchName monAbbrTbl s).map (fun p => ({ f with month := p.1 }, p.2))
  | .dayNum, s, f =>
    (matchDay s).map (fun p => ({ f with day := p.1 }, p.2))
  | .year4, s, f =>
    (matchYear s).map (fun p => ({ f with year := p.1 }, p.2))
  | .hour12, s, f =>
    (matchHour s).map (fun p => ({ f with hr12 := p.1 }, p.2))
  | .minNum, s, f =>
    (matchMin s).map (fun p => ({ f with minute := p.1 }, p.2))
  | .ampm, s, f =>
    (matchAmPm s).map (fun p => ({ f with pm := p.1 }, p.2))

/-- Run a token list over the input, threading the fields. -/
def runToks : List FmtTok → List Char → RawFields → Option (RawFields × List Char)
  | [], s, f => some (f, s)
  | t :: ts, s, f =>
    match matchToken t s f with
    | some (f', s') => runToks ts s' f'
    | none => none

/-- The 12-hour-to-24-hour conversion `_strptime` applies to `%I` + `%p`. -/
def hourFrom (hr12 : Nat) (pm : Bool) : Nat :=
  if pm then (if hr12 = 12 then 12 else hr12 + 12)
  else (if hr12 = 12 then 0 else hr12)

/-- Convert the matched fields to a `datetime`: `%I`+`%p` are converted to a
24-hour value, then the `datetime(...)` constructor validates every field
(`MINYEAR = 1`, `MAXYEAR = 9999`, day against the month length). -/
def buildDT (f : RawFields) : Option DateTime :=
  if 1 ≤ f.year ∧ f.year ≤ 9999 ∧ 1 ≤ f.month ∧ f.month ≤ 12 ∧
     1 ≤ f.day ∧ f.day ≤ daysInMonth f.year f.month ∧
     hourFrom f.hr12 f.pm ≤ 23 ∧ f.minute ≤ 59 then
    some ⟨f.year, f.month, f.day, hourFrom f.hr12 f.pm, f.minute⟩
  else none

/-- `datetime.strptime(s, fmt)` for the format fragments the script uses:
the whole input must be consumed (`_strptime` rejects trailing text). -/
def strptime (fmt : List FmtTok) (s : List Char) : Option DateTime :=
  match runToks fmt s f0 with
  | some (f, []) => buildDT f
  | _ => none

/-- `"%A, %B %d, %Y %I:%M %p"`. -/
def fmtOf (dayTok monTok : FmtTok) : List FmtTok :=
  [dayTok, .lit ',', .ws, monTok, .ws, .dayNum, .lit ',', .ws, .year4,
   .ws, .hour12, .lit ':', .minNum, .ws, .ampm]

/-- `"%A, %B %d, %Y %I:%M %p"` (full weekday, full month). -/
def fmt1 : List FmtTok := fmtOf .dayFull .monFull

/-- `"%A, %b %d, %Y %I:%M %p"` (full weekday, abbreviated month). -/
def fmt2 : List FmtTok := fmtOf .dayFull .monAbbr

/-- `"%a, %B %d, %Y %I:%M %p"` (abbreviated weekday, full month). -/
def fmt3 : List FmtTok := fmtOf .dayAbbr .monFull

/-- `"%a, %b %d, %Y %I:%M %p"` (abbreviated weekday, abbreviated month). -/
def fmt4 : List FmtTok := fmtOf .dayAbbr .monAbbr

/-- The `formats` list of `parse_event_time`, in source order. -/
def formats : List (List FmtTok) := [fmt1, fmt2, fmt3, fmt4]

/-- The `for fmt in formats: try ... except ValueError: continue` loop. -/
def tryFormats : List (List FmtTok) → List Char → Option DateTime
  | [], _ => none
  | f :: fs, s =>
    match strptime f s with
    | some d => some d
    | none => tryFormats fs s

/-- `parse_event_time`: try the four formats in order; `None` if all fail. -/
def parse_event_time (event_time_str : List Char) : Option DateTime :=
  tryFormats formats event_time_str

/-- The literal marker `"Registration Confirmation: "`. -/
def markerL : List Char := s2l "Registration Confirmation: "

/-- The literal separator `" on "`. -/
def sepOnL : List Char := s2l " on "

/-- The `event_details` dictionary built by `extract_event_details`.  The
script stores `event_time` as `event_time_obj.isoformat()` and
`create_calendar_event` immediately re-reads it with
`datetime.fromisoformat`; since `fromisoformat ∘ isoformat` is the identity
on naive datetimes, the embedding keeps the `DateTime` value itself. -/
structure EventDetails where
  event_name : List Char
  event_time : DateTime
deriving DecidableEq, Repr

/-- The part of `extract_event_details` that runs on the fragment chosen by
the marker split: split on `" on "`, require exactly two pieces, strip both,
and parse the time. -/
def processRemainder (rem : List Char) : Option EventDetails :=
  match splitOn sepOnL rem with
  | [n, t] =>
    let gcal_event_name := strip n
    let gcal_event_time := strip t
    match parse_event_time gcal_event_time with
    | some dt => some ⟨gcal_event_name, dt⟩
    | none => none
  | _ => none

/-- `extract_event_details` on a subject line:
`split_subject = subject_line.split("Registration Confirmation: ")`, require
`len(split_subject) > 1`, then process `split_subject[1]`. -/
def extract_event_details (subject_line : List Char) : Option EventDetails :=
  match splitOn markerL subject_line with
  | _ :: rem :: _ => processRemainder rem
  | _ => none

/-- Modelled from the spec: the spec's description of SubjectExtractor says
the remainder is the full suffix following the first occurrence of the
marker.  This definition follows those words (for comparison with
`extract_event_details`, which uses `split(...)[1]`). -/
def extract_event_details_fullsuffix (subject_line : List Char) :
    Option EventDetails :=
  match findOccIdx markerL subject_line with
  | some i => processRemainder (subject_line.drop (i + markerL.length))
  | none => none

/-- The fragment `split_subject[1]` actually processed by the script,
characterised positionally: the text after the first occurrence of the
marker, cut at the next occurrence of the marker (if any). -/
def remainder_after_marker (subject_line : List Char) : Option (List Char) :=
  match findOccIdx markerL subject_line with
  | none => none
  | some i =>
    let suff := subject_line.drop (i + markerL.length)
    match findOccIdx markerL suff with
    | none => some suff
    | some j => some (suff.take j)

/-- A fetched Gmail message: `msg['payload']['headers']`, a list of
`(name, value)` pairs. -/
structure RawMessage where
  headers : List (List Char × List Char)
deriving DecidableEq, Repr

/-- The header scan of `extract_event_details`: the value of the first
header named `Subject`, if any. -/
def find_subject (headers : List (List Char × List Char)) :
    Option (List Char) :=
  match headers.find? (fun h => h.1 = s2l "Subject") with
  | some h => some h.2
  | none => none

/-- `extract_event_details` on a whole message: find the subject header
(`if not subject_line` also rejects an empty subject value), then parse the
subject line. -/
def extract_from_msg (msg : RawMessage) : Option EventDetails :=
  match find_subject msg.headers with
  | none => none
  | some s => if s = [] then none else extract_event_details s

/-- Number of days from 0000-03-01 to the given civil date (valid for
`y ≥ 1`); used only to compute the weekday for `%A`/`%a` in `strftime`. -/
def daysN (y m dd : Nat) : Nat :=
  let y' := if m ≤ 2 then y - 1 else y
  let era := y' / 400
  let yoe := y' % 400
  let mp := if m ≤ 2 then m + 9 else m - 3
  let doy := (153 * mp + 2) / 5 + dd - 1
  let doe := yoe * 365 + yoe / 4 - yoe / 100 + doy
  era * 146097 + doe

/-- `datetime.weekday()`: Monday = 0, ..., Sunday = 6. -/
def weekdayOf (d : DateTime) : Nat :=
  (daysN d.year d.month d.day + 2) % 7

/-- Full weekday name, as `strftime %A` prints it (C locale). -/
def dayNameFull : Nat → List Char
  | 0 => ['M','o','n','d','a','y']
  | 1 => ['T','u','e','s','d','a','y']
  | 2 => ['W','e','d','n','e','s','d','a','y']
  | 3 => ['T','h','u','r','s','d','a','y']
  | 4 => ['F','r','i','d','a','y']
  | 5 => ['S','a','t','u','r','d','a','y']
  | _ => ['S','u','n','d','a','y']

/-- Abbreviated weekday name, as `strftime %a` prints it. -/
def dayNameAbbr : Nat → List Char
  | 0 => ['M','o','n']
  | 1 => ['T','u','e']
  | 2 => ['W','e','d']
  | 3 => ['T','h','u']
  | 4 => ['F','r','i']
  | 5 => ['S','a','t']
  | _ => ['S','u','n']

/-- Full month name, as `strftime %B` prints it. -/
def monNameFull : Nat → List Char
  | 1 => ['J','a','n','u','a','r','y']
  | 2 => ['F','e','b','r','u','a','r','y']
  | 3 => ['M','a','r','c','h']
  | 4 => ['A','p','r','i','l']
  | 5 => ['M','a','y']
  | 6 => ['J','u','n','e']
  | 7 => ['J','u','l','y']
  | 8 => ['A','u','g','u','s','t']
  | 9 => ['S','e','p','t','e','m','b','e','r']
  | 10 => ['O','c','t','o','b','e','r']
  | 11 => ['N','o','v','e','m','b','e','r']
  | _ => ['D','e','c','e','m','b','e','r']

/-- Abbreviated month name, as `strftime %b` prints it. -/
def monNameAbbr : Nat → List Char
  | 1 => ['J','a','n']
  | 2 => ['F','e','b']
  | 3 => ['M','a','r']
  | 4 => ['A','p','r']
  | 5 => ['M','a','y']
  | 6 => ['J','u','n']
  | 7 => ['J','u','l']
  | 8 => ['A','u','g']
  | 9 => ['S','e','p']
  | 10 => ['O','c','t']
  | 11 => ['N','o','v']
  | _ => ['D','e','c']

/-- The digit character for `k % 10`. -/
def digitChar (k : Nat) : Char := Char.ofNat (48 + k % 10)

/-- Two-digit zero-padded decimal, as `strftime` prints `%d %I %M`. -/
def pad2 (n : Nat) : List Char := [digitChar (n / 10 % 10), digitChar (n % 10)]

/-- Four-digit zero-padded decimal for `%Y`.  (C libraries disagree on
padding `%Y` below year 1000; the round-trip theorems therefore restrict to
years with four significant digits.) -/
def pad4 (n : Nat) : List Char :=
  [digitChar (n / 1000 % 10), digitChar (n / 100 % 10),
   digitChar (n / 10 % 10), digitChar (n % 10)]

/-- The 12-hour clock value `%I` prints: 12 for 0/12, else `hour % 12`. -/
def hourDisplay (h : Nat) : Nat := if h % 12 = 0 then 12 else h % 12

/-- Output of one format token under `strftime`. -/
def emitTok (d : DateTime) : FmtTok → List Char
  | .lit c => [c]
  | .ws => [' ']
  | .dayFull => dayNameFull (weekdayOf d)
  | .dayAbbr => dayNameAbbr (weekdayOf d)
  | .monFull => monNameFull d.month
  | .monAbbr => monNameAbbr d.month
  | .dayNum => pad2 d.day
  | .year4 => pad4 d.year
  | .hour12 => pad2 (hourDisplay d.hour)
  | .minNum => pad2 d.minute
  | .ampm => if 12 ≤ d.hour then ['P','M'] else ['A','M']

/-- `datetime.strftime(fmt)` over the same token lists as `strptime`. -/
def strftime : List FmtTok → DateTime → List Char
  | [], _ => []
  | t :: ts, d => emitTok d t ++ strftime ts d

/-- The fields of `datetime(year, month, day, hour, minute)` are in range
(what the constructor validates, hence what any `strptime` result obeys). -/
def ValidDT (d : DateTime) : Prop :=
  1 ≤ d.year ∧ d.year ≤ 9999 ∧ 1 ≤ d.month ∧ d.month ≤ 12 ∧
  1 ≤ d.day ∧ d.day ≤ daysInMonth d.year d.month ∧
  d.hour ≤ 23 ∧ d.minute ≤ 59

instance (d : DateTime) : Decidable (ValidDT d) := by
  unfold ValidDT; infer_instance

/-- A timezone-aware instant as the script manipulates it: an absolute UTC
minute count plus the fixed UTC offset (in minutes) its wall clock shows.
The ISO strings the script sends to the API are injective renderings of
these values. -/
structure AwareDT where
  utc : Int
  off : Int
deriving DecidableEq, Repr

/-- The wall-clock reading of an aware instant, in minutes. -/
def wallMin (a : AwareDT) : Int := a.utc + a.off

/-- A naive `DateTime` as a minute count (days via `daysN`); the affine
encoding under which `astimezone` and `timedelta` act. -/
def toMinutes (d : DateTime) : Int :=
  (daysN d.year d.month d.day : Int) * 1440 + d.hour * 60 + d.minute

/-- `naive.astimezone(tz)`: a naive datetime is interpreted in the
runtime's local timezone (offset `localOff` at that instant) and converted
to the target zone (offset `tzOff` at that instant). -/
def astimezoneNaive (d : DateTime) (localOff tzOff : Int) : AwareDT :=
  ⟨toMinutes d - localOff, tzOff⟩

/-- `aware + timedelta(minutes = k)`: shifts the wall clock, keeping the
(fixed) offset. -/
def addMinutes (a : AwareDT) (k : Int) : AwareDT := ⟨a.utc + k, a.off⟩

/-- The request body of `events().insert`: summary, start/end with their
named timezone, attendees. -/
structure InsertBody where
  summary : List Char
  startDT : AwareDT
  startTz : List Char
  endDT : AwareDT
  endTz : List Char
  attendees : List (List Char)
deriving DecidableEq, Repr

/-- One call the script makes to the calendar collaborator, as recorded in
the call log: a `events().list` query (timeMin, timeMax, q) or a
`events().insert` (body, and whether the collaborator reported success). -/
inductive CalCall where
  | list : AwareDT → AwareDT → List Char → CalCall
  | insert : InsertBody → Bool → CalCall
deriving DecidableEq, Repr

/-- The calendar collaborator, abstract over its state `σ`: `listEvents`
answers a window+text query (read-only), `insertEvent` may fail
(`HttpError`, modelled as `none`, leaving the state unchanged) or return a
created event id and the new state. -/
structure CalendarService (σ : Type) where
  listEvents : σ → AwareDT → AwareDT → List Char → List Nat
  insertEvent : σ → InsertBody → Option (Nat × σ)

/-- The mail collaborator: `listMessages` returns message ids for a query
(already `[]` on an error or an empty result, as `get_confirmation_emails`
normalises both to `[]`); `getMessage` fetches one message (`none` models
an `HttpError`). -/
structure MailService where
  listMessages : List Char → Nat → List Nat
  getMessage : Nat → Option RawMessage

/-- `check_existing_event`: query the calendar for events in
`[start, end)` matching the event name; returns the (possibly empty) list. -/
def check_existing_event {σ : Type} (calendar_service : CalendarService σ)
    (st : σ) (event_name : List Char) (start_time_iso end_time_iso : AwareDT) :
    List Nat :=
  calendar_service.listEvents st start_time_iso end_time_iso event_name

/-- The `start_time_obj` of `create_calendar_event`: the parsed naive time
localized via `astimezone` to America/Chicago (`localOff` is the runtime's
local UTC offset, `chiOff` America/Chicago's, both at that instant). -/
def startOfEvent (event_details : EventDetails) (localOff chiOff : Int) :
    AwareDT :=
  astimezoneNaive event_details.event_time localOff chiOff

/-- The `end_time_obj`: `start_time_obj + timedelta(hours=1)`. -/
def endOfEvent (event_details : EventDetails) (localOff chiOff : Int) :
    AwareDT :=
  addMinutes (startOfEvent event_details localOff chiOff) 60

/-- The `event` dictionary passed to `events().insert`. -/
def insertBodyOf (event_details : EventDetails) (localOff chiOff : Int)
    (email1 email2 : List Char) : InsertBody :=
  ⟨event_details.event_name, startOfEvent event_details localOff chiOff,
    s2l "America/Chicago", endOfEvent event_details localOff chiOff,
    s2l "America/Chicago", [email1, email2]⟩

/-- `create_calendar_event`: localize the parsed time to America/Chicago,
build the 1-hour window, check for duplicates, and insert if absent.
Returns the created event (if any), the new calendar state, and the log of
collaborator calls made. -/
def create_calendar_event {σ : Type} (calendar_service : CalendarService σ)
    (st : σ) (localOff chiOff : Int) (event_details : EventDetails)
    (email1 email2 : List Char) : Option Nat × σ × List CalCall :=
  if check_existing_event calendar_service st event_details.event_name
      (startOfEvent event_details localOff chiOff)
      (endOfEvent event_details localOff chiOff) ≠ [] then
    (none, st,
      [.list (startOfEvent event_details localOff chiOff)
        (endOfEvent event_details localOff chiOff)
        event_details.event_name])
  else
    match calendar_service.insertEvent st
        (insertBodyOf event_details localOff chiOff email1 email2) with
    | some (ev, st') =>
      (some ev, st',
        [.list (startOfEvent event_details localOff chiOff)
          (endOfEvent event_details localOff chiOff)
          event_details.event_name,
         .insert (insertBodyOf event_details localOff chiOff email1 email2)
           true])
    | none =>
      (none, st,
        [.list (startOfEvent event_details localOff chiOff)
          (endOfEvent event_details localOff chiOff)
          event_details.event_name,
         .insert (insertBodyOf event_details localOff chiOff email1 email2)
           false])

/-- One iteration of `main`'s message loop: fetch the message (an
`HttpError` is caught and the loop continues), extract the details (a
mismatch or parse failure yields `None` and the message is skipped), then
create the event; the returned `Nat` is the increment of `events_created`. -/
def processMessage {σ : Type} (gmail_service : MailService)
    (calendar_service : CalendarService σ) (localOff chiOff : Int)
    (email1 email2 : List Char) (st : σ) (mid : Nat) :
    Nat × σ × List CalCall :=
  match gmail_service.getMessage mid with
  | none => (0, st, [])
  | some msg =>
    match extract_from_msg msg with
    | none => (0, st, [])
    | some ed =>
      match create_calendar_event calendar_service st localOff chiOff ed
          email1 email2 with
      | (some _, st', lg) => (1, st', lg)
      | (none, st', lg) => (0, st', lg)

/-- The outcome of the message loop: the final `events_created` count, the
final calendar state, and the concatenated call log. -/
structure RunAcc (σ : Type) where
  count : Nat
  st : σ
  log : List CalCall
deriving Repr

/-- The message loop of `main`, over a list of message ids. -/
def processAll {σ : Type} (gmail_service : MailService)
    (calendar_service : CalendarService σ) (localOff chiOff : Int)
    (email1 email2 : List Char) : σ → List Nat → RunAcc σ
  | st, [] => ⟨0, st, []⟩
  | st, mid :: rest =>
    match processMessage gmail_service calendar_service localOff chiOff
        email1 email2 st mid with
    | (c, st', lg) =>
      let r := processAll gmail_service calendar_service localOff chiOff
        email1 email2 st' rest
      ⟨c + r.count, r.st, lg ++ r.log⟩

/-- `get_confirmation_emails`: ask the mail collaborator for matching
message ids (the script returns `[]` both on an empty result and on an
`HttpError`; the abstract collaborator already folds both into its answer). -/
def get_confirmation_emails (gmail_service : MailService)
    (query : List Char) (max_messages : Nat) : List Nat :=
  gmail_service.listMessages query max_messages

/-- The script's `main`: fetch the message list; if it is empty, exit early
(the first component `none` records that the final `"Process completed. N
events were created."` summary is never printed on this path); otherwise run
the loop and report its count.  (Named `main_run` because a Lean `def main`
must be an entry point.) -/
def main_run {σ : Type} (gmail_service : MailService)
    (calendar_service : CalendarService σ) (st0 : σ)
    (email1 email2 query : List Char) (max_messages : Nat)
    (localOff chiOff : Int) : Option Nat × RunAcc σ :=
  let messages := get_confirmation_emails gmail_service query max_messages
  if messages = [] then (none, ⟨0, st0, []⟩)
  else
    let r := processAll gmail_service calendar_service localOff chiOff
      email1 email2 st0 messages
    (some r.count, r)

/-- Number of insert calls in a log that the collaborator accepted, i.e.
the number of events actually created. -/
def insertOkCount (lg : List CalCall) : Nat :=
  lg.countP (fun c =>
    match c with
    | .insert _ true => true
    | _ => false)

/-! ### Lemmas about the `str.split` model -/

theorem dropPref_some {p s r : List Char} (h : dropPref p s = some r) :
    s = p ++ r := by
  induction p generalizing s with
  | nil => simpa [dropPref] using h
  | cons a ps ih =>
    cases s with
    | nil => simp [dropPref] at h
    | cons c cs =>
      simp only [dropPref] at h
      by_cases hc : c = a
      · simp [hc] at h
        simpa [hc] using ih h
      · simp [hc] at h

theorem dropPref_append (p r : List Char) : dropPref p (p ++ r) = some r := by
  induction p with
  | nil => rfl
  | cons a ps ih => simp [dropPref, ih]

theorem splitOnF_congr : ∀ (n m : Nat) (sep s : List Char),
    s.length < n → s.length < m → splitOnF n sep s = splitOnF m sep s := by
  intro n
  induction n using Nat.strong_induction_on with
  | _ n ih =>
    intro m sep s hn hm
    cases n with
    | zero => omega
    | succ n' =>
      cases m with
      | zero => omega
      | succ m' =>
        simp only [splitOnF]
        cases hdp : dropPref sep s with
        | some rest =>
          by_cases hsep : sep = []
          · simp [hsep]
          · simp only [if_neg hsep]
            have hs := dropPref_some hdp
            have hlen : rest.length < s.length := by
              subst hs
              cases sep with
              | nil => exact absurd rfl hsep
              | cons a l => simp [List.length_append]; omega
            rw [ih n' (by omega) m' sep rest (by omega) (by omega)]
        | none =>
          cases s with
          | nil => rfl
          | cons c cs =>
            dsimp only
            simp only [List.length_cons] at hn hm
            rw [ih n' (by omega) m' sep cs (by omega) (by omega)]

theorem splitOn_eq (sep s : List Char) (hsep : sep ≠ []) :
    splitOn sep s =
      match dropPref sep s with
      | some rest => [] :: splitOn sep rest
      | none =>
        match s with
        | [] => [[]]
        | c :: cs => consHead c (splitOn sep cs) := by
  show splitOnF (s.length + 1) sep s = _
  simp only [splitOnF]
  cases hdp : dropPref sep s with
  | some rest =>
    simp only [if_neg hsep]
    have hs := dropPref_some hdp
    have hlen : rest.length < s.length := by
      subst hs
      cases sep with
      | nil => exact absurd rfl hsep
      | cons a l => simp [List.length_append]; omega
    rw [splitOnF_congr s.length (rest.length + 1) sep rest (by omega) (by omega)]
    rfl
  | none =>
    cases s with
    | nil => rfl
    | cons c cs =>
      dsimp only
      rw [splitOnF_congr (c :: cs).length (cs.length + 1) sep cs (by simp) (by omega)]
      rfl

theorem findOccIdx_eq (sep s : List Char) :
    findOccIdx sep s =
      if (dropPref sep s).isSome then some 0
      else
        match s with
        | [] => none
        | _ :: cs =>
          match findOccIdx sep cs with
          | some j => some (j + 1)
          | none => none := by
  cases s <;> simp [findOccIdx]

theorem occursAtB_zero (sep s : List Char) :
    occursAtB sep s 0 = (dropPref sep s).isSome := by
  simp [occursAtB]

theorem occursAtB_cons_succ (sep : List Char) (c : Char) (cs : List Char)
    (i : Nat) : occursAtB sep (c :: cs) (i + 1) = occursAtB sep cs i := by
  simp [occursAtB]

theorem findOccIdx_none_of_no_occ (sep s : List Char)
    (h : ∀ i, occursAtB sep s i = false) : findOccIdx sep s = none := by
  induction s with
  | nil =>
    have h0 := h 0
    rw [occursAtB_zero] at h0
    simp [findOccIdx_eq, h0]
  | cons c cs ih =>
    have h0 := h 0
    rw [occursAtB_zero] at h0
    rw [findOccIdx_eq]
    simp only [h0, Bool.false_eq_true, if_false]
    rw [ih (fun i => by
      have := h (i + 1)
      rwa [occursAtB_cons_succ] at this)]

theorem findOccIdx_least (sep s : List Char) (k : Nat)
    (hlow : ∀ i, i < k → occursAtB sep s i = false)
    (hk : occursAtB sep s k = true) : findOccIdx sep s = some k := by
  induction k generalizing s with
  | zero =>
    rw [occursAtB_zero] at hk
    rw [findOccIdx_eq, if_pos hk]
  | succ k' ih =>
    have h0 := hlow 0 (by omega)
    rw [occursAtB_zero] at h0
    rw [findOccIdx_eq]
    simp only [h0, Bool.false_eq_true, if_false]
    cases s with
    | nil =>
      exfalso
      simp [occursAtB, dropPref] at hk
      cases hsep : sep with
      | nil =>
        rw [hsep] at h0
        simp [dropPref] at h0
      | cons a l => rw [hsep] at hk; simp [dropPref] at hk
    | cons c cs =>
      dsimp only
      rw [ih cs (fun i hi => by
            have := hlow (i + 1) (by omega)
            rwa [occursAtB_cons_succ] at this)
          (by rwa [occursAtB_cons_succ] at hk)]

theorem hasOccB_false_no_occ (sep s : List Char) (h : hasOccB sep s = false) :
    ∀ i, occursAtB sep s i = false := by
  intro i
  by_contra hcon
  rw [Bool.not_eq_false] at hcon
  have hex : ∃ j, occursAtB sep s j = true := ⟨i, hcon⟩
  have hfind := findOccIdx_least sep s (Nat.find hex)
    (fun j hj => by
      have := Nat.find_min hex hj
      simpa using this)
    (Nat.find_spec hex)
  unfold hasOccB at h
  rw [hfind] at h
  simp at h

theorem dropPref_nil {sep : List Char} (hsep : sep ≠ []) :
    dropPref sep ([] : List Char) = none := by
  cases sep with
  | nil => exact absurd rfl hsep
  | cons a l => rfl

theorem splitOn_of_no_occ (sep s : List Char) (hsep : sep ≠ [])
    (h : hasOccB sep s = false) : splitOn sep s = [s] := by
  induction s with
  | nil =>
    rw [splitOn_eq sep [] hsep, dropPref_nil hsep]
  | cons c cs ih =>
    have hall := hasOccB_false_no_occ sep _ h
    rw [splitOn_eq sep _ hsep]
    have h0 : dropPref sep (c :: cs) = none := by
      have h00 := hall 0
      rw [occursAtB_zero] at h00
      exact Option.not_isSome_iff_eq_none.mp (by simp [h00])
    rw [h0]
    dsimp only
    have hcs : hasOccB sep cs = false := by
      unfold hasOccB
      cases hc : findOccIdx sep cs with
      | none => rfl
      | some j =>
        exfalso
        have hocc1 := hall 1
        rw [occursAtB_cons_succ] at hocc1
        have : findOccIdx sep cs = none := by
          rcases hj : findOccIdx sep cs with _ | j'
          · rfl
          · exfalso
            have hfn : findOccIdx sep (c :: cs) = none :=
              findOccIdx_none_of_no_occ sep _ hall
            rw [findOccIdx_eq, h0] at hfn
            simp only [Option.isSome_none, Bool.false_eq_true, if_false] at hfn
            rw [hj] at hfn
            simp at hfn
        rw [this] at hc
        cases hc
    rw [ih hcs]
    rfl

theorem splitOn_find (sep : List Char) (hsep : sep ≠ []) (s : List Char) :
    splitOn sep s =
      match findOccIdx sep s with
      | none => [s]
      | some i => s.take i :: splitOn sep (s.drop (i + sep.length)) := by
  induction s with
  | nil =>
    rw [findOccIdx_eq, dropPref_nil hsep]
    simp only [Option.isSome_none, Bool.false_eq_true, if_false]
    rw [splitOn_eq sep [] hsep, dropPref_nil hsep]
  | cons c cs ih =>
    rw [splitOn_eq sep _ hsep, findOccIdx_eq]
    cases hdp : dropPref sep (c :: cs) with
    | some rest =>
      simp only [Option.isSome_some, if_pos]
      have hs := dropPref_some hdp
      rw [List.take_zero, Nat.zero_add, hs, List.drop_left]
    | none =>
      simp only [Option.isSome_none, Bool.false_eq_true, if_false]
      rw [ih]
      cases hf : findOccIdx sep cs with
      | none => rfl
      | some j =>
        dsimp only [consHead]
        rw [List.take_succ_cons,
          show j + 1 + sep.length = (j + sep.length) + 1 from by omega,
          List.drop_succ_cons]

theorem occursAtB_boundary (sep name time : List Char) :
    occursAtB sep (name ++ sep ++ time) name.length = true := by
  unfold occursAtB
  rw [List.append_assoc, List.drop_left, dropPref_append]
  rfl

theorem splitOn_boundary (sep name time : List Char) (hsep : sep ≠ [])
    (hlow : ∀ i, i < name.length →
      occursAtB sep (name ++ sep ++ time) i = false) :
    splitOn sep (name ++ sep ++ time) = name :: splitOn sep time := by
  rw [splitOn_find sep hsep]
  rw [findOccIdx_least sep _ name.length hlow (occursAtB_boundary sep name time)]
  dsimp only
  rw [List.append_assoc, List.take_left]
  have hdrop : (name ++ (sep ++ time)).drop (name.length + sep.length) = time := by
    rw [← List.append_assoc, show name.length + sep.length = (name ++ sep).length
      from by simp, List.drop_left]
  rw [hdrop]

/-! ### The subject extractor: relating `split(...)[1]` to occurrence
positions -/

theorem markerL_ne_nil : markerL ≠ [] := by decide

theorem sepOnL_ne_nil : sepOnL ≠ [] := by decide

/-- `extract_event_details` processes exactly the fragment described by
`remainder_after_marker`: the text between the first marker occurrence and
the next one (or the end). -/
theorem extract_via_remainder (s : List Char) :
    extract_event_details s =
      match remainder_after_marker s with
      | none => none
      | some r => processRemainder r := by
  unfold extract_event_details remainder_after_marker
  rw [splitOn_find markerL markerL_ne_nil s]
  cases hf : findOccIdx markerL s with
  | none => rfl
  | some i =>
    dsimp only
    rw [splitOn_find markerL markerL_ne_nil (s.drop (i + markerL.length))]
    cases hf2 : findOccIdx markerL (s.drop (i + markerL.length)) with
    | none => rfl
    | some j => rfl

/-! ### Claims C3, C4, C5, C1 -/

/-- C3: `parse_event_time` tries the four formats (full/abbreviated
day-of-week crossed with full/abbreviated month name, each with a 12-hour
clock and AM/PM marker) in the fixed order `fmt1 fmt2 fmt3 fmt4` and
returns the first successful parse; if every format fails it returns `None`
(the ParseFailure signal).  In particular `"Saturday, Jan 11, 2025 9:00
AM"` fails `fmt1` and parses via `fmt2`, the second format in priority
order. -/
theorem claim_C3 :
    (∀ s, parse_event_time s =
      match strptime fmt1 s, strptime fmt2 s, strptime fmt3 s,
          strptime fmt4 s with
      | some d, _, _, _ => some d
      | none, some d, _, _ => some d
      | none, none, some d, _ => some d
      | none, none, none, r => r) ∧
    strptime fmt1 (s2l "Saturday, Jan 11, 2025 9:00 AM") = none ∧
    strptime fmt2 (s2l "Saturday, Jan 11, 2025 9:00 AM") =
      some ⟨2025, 1, 11, 9, 0⟩ ∧
    parse_event_time (s2l "Saturday, Jan 11, 2025 9:00 AM") =
      some ⟨2025, 1, 11, 9, 0⟩ := by
  refine ⟨?_, by rfl, by rfl, by rfl⟩
  intro s
  unfold parse_event_time formats tryFormats
  cases h1 : strptime fmt1 s <;> cases h2 : strptime fmt2 s <;>
    cases h3 : strptime fmt3 s <;> cases h4 : strptime fmt4 s <;>
    simp [tryFormats, h1, h2, h3, h4]

/-- C5 (counterexample): the claim says the extracted portion is the full
suffix following the first marker occurrence even when the marker occurs
more than once.  On this subject, processing the full suffix would succeed
(yielding the name `"A Registration Confirmation: B"`), but the script's
`split(...)[1]` is only the fragment `"A "` between the two marker
occurrences, so extraction fails. -/
theorem claim_C5_counterexample :
    hasOccB markerL (s2l "Registration Confirmation: A Registration Confirmation: B on Saturday, January 11, 2025 09:00 AM") = true ∧
    extract_event_details_fullsuffix (s2l "Registration Confirmation: A Registration Confirmation: B on Saturday, January 11, 2025 09:00 AM") =
      some ⟨s2l "A Registration Confirmation: B", ⟨2025, 1, 11, 9, 0⟩⟩ ∧
    extract_event_details (s2l "Registration Confirmation: A Registration Confirmation: B on Saturday, January 11, 2025 09:00 AM") = none :=
  ⟨by rfl, by rfl, by rfl⟩

/-- C5 (amended): `extract_event_details` splits the subject on all
occurrences of the marker and processes the fragment of index 1, i.e. the
text after the first marker occurrence cut at the next marker occurrence;
when the marker occurs exactly once this fragment is the full suffix after
the marker. -/
theorem claim_C5 :
    (∀ s, extract_event_details s =
      match remainder_after_marker s with
      | none => none
      | some r => processRemainder r) ∧
    (∀ s i, findOccIdx markerL s = some i →
      findOccIdx markerL (s.drop (i + markerL.length)) = none →
      remainder_after_marker s = some (s.drop (i + markerL.length))) := by
  refine ⟨extract_via_remainder, ?_⟩
  intro s i h1 h2
  unfold remainder_after_marker
  rw [h1]
  dsimp only
  rw [h2]

/-- C5 witness: on scenario 3's subject the marker occurs exactly once (at
index 0) and the processed fragment is the full suffix `"Advanced Class"`. -/
theorem claim_C5_witness :
    remainder_after_marker (s2l "Registration Confirmation: Advanced Class") =
      some (s2l "Advanced Class") :=
  claim_C5.2 (s2l "Registration Confirmation: Advanced Class") 0 (by rfl) (by rfl)

/-- C4 (counterexample): a subject whose remainder after the (first) marker
contains three occurrences of `" on "` — not exactly one — yet
`extract_event_details` succeeds, because the marker occurs again and the
fragment the script actually processes (`split(...)[1]`) stops at the
second marker occurrence and contains exactly one `" on "`. -/
theorem claim_C4_counterexample :
    countOcc sepOnL ((s2l "Registration Confirmation: A on Saturday, January 11, 2025 09:00 AM Registration Confirmation: X on Y on Z").drop markerL.length) = 3 ∧
    extract_event_details (s2l "Registration Confirmation: A on Saturday, January 11, 2025 09:00 AM Registration Confirmation: X on Y on Z") =
      some ⟨s2l "A", ⟨2025, 1, 11, 9, 0⟩⟩ :=
  ⟨by rfl, by rfl⟩

/-- C4 (amended): if the subject lacks the marker, or the fragment the
script processes (the text after the first marker occurrence, cut at the
next marker occurrence) does not split on `" on "` into exactly two pieces,
then `extract_event_details` returns `None` (FormatMismatch) — and the
message is skipped: no calendar call is made and the created count is
unchanged. -/
theorem claim_C4 : ∀ s : List Char,
    (∀ r, remainder_after_marker s = some r →
      (splitOn sepOnL r).length ≠ 2) →
    extract_event_details s = none ∧
    (∀ (σ : Type) (gm : MailService) (cal : CalendarService σ)
      (localOff chiOff : Int) (e1 e2 : List Char) (st : σ) (mid : Nat)
      (msg : RawMessage), gm.getMessage mid = some msg →
      find_subject msg.headers = some s → s ≠ [] →
      processMessage gm cal localOff chiOff e1 e2 st mid = (0, st, [])) := by
  intro s h
  have hex : extract_event_details s = none := by
    rw [extract_via_remainder]
    cases hr : remainder_after_marker s with
    | none => rfl
    | some r =>
      dsimp only
      have hlen := h r hr
      unfold processRemainder
      cases hs : splitOn sepOnL r with
      | nil => rfl
      | cons n t =>
        cases t with
        | nil => rfl
        | cons t2 t3 =>
          cases t3 with
          | nil => exact absurd (by rw [hs]; rfl) hlen
          | cons u t4 => rfl
  refine ⟨hex, ?_⟩
  intro σ gm cal localOff chiOff e1 e2 st mid msg hget hsubj hne
  unfold processMessage
  rw [hget]
  dsimp only
  have hmsg : extract_from_msg msg = none := by
    unfold extract_from_msg
    rw [hsubj]
    dsimp only
    rw [if_neg hne, hex]
  rw [hmsg]

/-- C4 witness: scenario 3's subject `"Registration Confirmation: Advanced
Class"` has no `" on "` separator, so extraction fails. -/
theorem claim_C4_witness :
    extract_event_details (s2l "Registration Confirmation: Advanced Class") = none :=
  (claim_C4 (s2l "Registration Confirmation: Advanced Class")
    (by
      intro r hr
      have h0 : remainder_after_marker
          (s2l "Registration Confirmation: Advanced Class") =
          some (s2l "Advanced Class") := by rfl
      rw [h0] at hr
      injection hr with h2
      rw [← h2]
      decide)).1

/-- C1 (counterexample): the subject below is of the required form with
`name = "A on B"` and `time = "Saturday, January 11, 2025 09:00 AM"` (a
valid time in the first accepted format), yet extraction returns `None`
instead of these trimmed parts, because the name itself contains the
separator `" on "` and the split yields three pieces. -/
theorem claim_C1_counterexample :
    parse_event_time (strip (s2l "Saturday, January 11, 2025 09:00 AM")) =
      some ⟨2025, 1, 11, 9, 0⟩ ∧
    s2l "Registration Confirmation: A on B on Saturday, January 11, 2025 09:00 AM" =
      markerL ++ (s2l "A on B" ++ sepOnL ++ s2l "Saturday, January 11, 2025 09:00 AM") ∧
    extract_event_details (s2l "Registration Confirmation: A on B on Saturday, January 11, 2025 09:00 AM") = none :=
  ⟨by rfl, by rfl, by rfl⟩

/-- C1 (amended): for a subject of the form `marker ++ name ++ " on " ++
time` where the time (trimmed) parses in one of the four accepted formats,
extraction returns exactly the trimmed name and the parsed time — provided
no occurrence of `" on "` starts inside `name`, `time` does not contain
`" on "`, and the remainder does not contain the marker again (conditions
the counterexample shows are necessary; a `time` that parses can never
contain the separator or the marker). -/
theorem claim_C1 : ∀ (name time : List Char) (d : DateTime),
    (∀ i, i < name.length →
      occursAtB sepOnL (name ++ sepOnL ++ time) i = false) →
    hasOccB sepOnL time = false →
    hasOccB markerL (name ++ sepOnL ++ time) = false →
    parse_event_time (strip time) = some d →
    extract_event_details (markerL ++ (name ++ sepOnL ++ time)) =
      some ⟨strip name, d⟩ := by
  intro name time d hlow htime hmark hparse
  rw [extract_via_remainder]
  have hfind0 : findOccIdx markerL (markerL ++ (name ++ sepOnL ++ time)) =
      some 0 := by
    rw [findOccIdx_eq, dropPref_append]
    rfl
  have hrem : remainder_after_marker (markerL ++ (name ++ sepOnL ++ time)) =
      some (name ++ sepOnL ++ time) := by
    unfold remainder_after_marker
    rw [hfind0]
    dsimp only
    rw [show (0 : Nat) + markerL.length = markerL.length from by omega,
      List.drop_left]
    have hfn : findOccIdx markerL (name ++ sepOnL ++ time) = none := by
      cases hc : findOccIdx markerL (name ++ sepOnL ++ time) with
      | none => rfl
      | some j =>
        unfold hasOccB at hmark
        rw [hc] at hmark
        simp at hmark
    rw [hfn]
  rw [hrem]
  dsimp only
  unfold processRemainder
  rw [splitOn_boundary sepOnL name time sepOnL_ne_nil hlow,
    splitOn_of_no_occ sepOnL time sepOnL_ne_nil htime]
  dsimp only
  rw [hparse]

/-- C1 witness: end-to-end scenario 1. -/
theorem claim_C1_witness :
    extract_event_details (s2l "Registration Confirmation: Beginners (White/Orng/Yellow) on Saturday, January 11, 2025 9:00 AM") =
      some ⟨s2l "Beginners (White/Orng/Yellow)", ⟨2025, 1, 11, 9, 0⟩⟩ :=
  claim_C1 (s2l "Beginners (White/Orng/Yellow)")
    (s2l "Saturday, January 11, 2025 9:00 AM") ⟨2025, 1, 11, 9, 0⟩
    (by decide) (by rfl) (by rfl) (by rfl)

/-! ### Scheduler lemmas and claims C2, C7, C10 -/

/-- C2: the duplicate check returns exactly the collaborator's query result
(the script's `if existing_events:` is true iff that list is non-empty), and
whenever that result is non-empty for the message's event name and window,
`create_calendar_event` returns `None` without calling insert (its call log
is the single `list` query), the calendar state is unchanged, and the
message contributes 0 to `events_created`. -/
theorem claim_C2 : ∀ (σ : Type) (cal : CalendarService σ) (st : σ)
    (nm : List Char) (a b : AwareDT),
    check_existing_event cal st nm a b = cal.listEvents st a b nm ∧
    (∀ (gm : MailService) (localOff chiOff : Int) (e1 e2 : List Char)
      (mid : Nat) (msg : RawMessage) (ed : EventDetails),
      gm.getMessage mid = some msg →
      extract_from_msg msg = some ed →
      cal.listEvents st (startOfEvent ed localOff chiOff)
        (endOfEvent ed localOff chiOff) ed.event_name ≠ [] →
      create_calendar_event cal st localOff chiOff ed e1 e2 =
        (none, st,
          [CalCall.list (startOfEvent ed localOff chiOff)
            (endOfEvent ed localOff chiOff) ed.event_name]) ∧
      processMessage gm cal localOff chiOff e1 e2 st mid =
        (0, st,
          [CalCall.list (startOfEvent ed localOff chiOff)
            (endOfEvent ed localOff chiOff) ed.event_name])) := by
  intro σ cal st nm a b
  refine ⟨rfl, ?_⟩
  intro gm localOff chiOff e1 e2 mid msg ed hget hex hdup
  have hcreate : create_calendar_event cal st localOff chiOff ed e1 e2 =
      (none, st,
        [CalCall.list (startOfEvent ed localOff chiOff)
          (endOfEvent ed localOff chiOff) ed.event_name]) := by
    unfold create_calendar_event check_existing_event
    rw [if_pos hdup]
  refine ⟨hcreate, ?_⟩
  unfold processMessage
  rw [hget]
  dsimp only
  rw [hex]
  dsimp only
  rw [hcreate]

/-- C2 witness: a concrete calendar whose query answer is non-empty. -/
theorem claim_C2_witness :
    create_calendar_event
      (⟨fun _ _ _ _ => [7], fun st _ => some (0, st)⟩ : CalendarService Unit)
      () (-360) (-360) ⟨s2l "A", ⟨2025, 1, 11, 9, 0⟩⟩ (s2l "x") (s2l "y") =
      (none, (),
        [CalCall.list (startOfEvent ⟨s2l "A", ⟨2025, 1, 11, 9, 0⟩⟩ (-360) (-360))
          (endOfEvent ⟨s2l "A", ⟨2025, 1, 11, 9, 0⟩⟩ (-360) (-360))
          (s2l "A")]) :=
  ((claim_C2 Unit ⟨fun _ _ _ _ => [7], fun st _ => some (0, st)⟩ ()
      (s2l "A") ⟨0, 0⟩ ⟨0, 0⟩).2
    (⟨fun _ _ => [0],
      fun _ => some ⟨[(s2l "Subject", s2l "Registration Confirmation: A on Saturday, January 11, 2025 9:00 AM")]⟩⟩ : MailService)
    (-360) (-360) (s2l "x") (s2l "y") 0
    ⟨[(s2l "Subject", s2l "Registration Confirmation: A on Saturday, January 11, 2025 9:00 AM")]⟩
    ⟨s2l "A", ⟨2025, 1, 11, 9, 0⟩⟩ (by rfl) (by rfl) (by decide)).1

/-- C7: whenever an event is actually scheduled, the window passed to the
duplicate check is exactly the window of the inserted event: the log is the
`list` query followed by the successful `insert`, the insert body carries
the same start and end, and the end is the start plus exactly one hour
(60 minutes, both in wall-clock and in absolute time). -/
theorem claim_C7 : ∀ (σ : Type) (cal : CalendarService σ) (st : σ)
    (localOff chiOff : Int) (ed : EventDetails) (e1 e2 : List Char),
    ((create_calendar_event cal st localOff chiOff ed e1 e2).1).isSome = true →
    (create_calendar_event cal st localOff chiOff ed e1 e2).2.2 =
      [CalCall.list (startOfEvent ed localOff chiOff)
        (endOfEvent ed localOff chiOff) ed.event_name,
       CalCall.insert (insertBodyOf ed localOff chiOff e1 e2) true] ∧
    (insertBodyOf ed localOff chiOff e1 e2).startDT =
      startOfEvent ed localOff chiOff ∧
    (insertBodyOf ed localOff chiOff e1 e2).endDT =
      endOfEvent ed localOff chiOff ∧
    endOfEvent ed localOff chiOff =
      addMinutes (startOfEvent ed localOff chiOff) 60 ∧
    wallMin (endOfEvent ed localOff chiOff) =
      wallMin (startOfEvent ed localOff chiOff) + 60 ∧
    (endOfEvent ed localOff chiOff).utc =
      (startOfEvent ed localOff chiOff).utc + 60 := by
  intro σ cal st localOff chiOff ed e1 e2 hsome
  refine ⟨?_, rfl, rfl, rfl, by simp [wallMin, endOfEvent, addMinutes]; omega,
    by simp [endOfEvent, addMinutes]⟩
  unfold create_calendar_event check_existing_event at hsome ⊢
  by_cases hdup : cal.listEvents st (startOfEvent ed localOff chiOff)
      (endOfEvent ed localOff chiOff) ed.event_name ≠ []
  · rw [if_pos hdup] at hsome
    simp at hsome
  · rw [if_neg hdup] at hsome ⊢
    cases hins : cal.insertEvent st (insertBodyOf ed localOff chiOff e1 e2) with
    | none => rw [hins] at hsome; simp at hsome
    | some p => rfl

/-- C7 witness: a calendar with no existing events and a successful insert. -/
theorem claim_C7_witness :
    (create_calendar_event
      (⟨fun _ _ _ _ => [], fun st _ => some (0, st)⟩ : CalendarService Unit)
      () (-360) (-360) ⟨s2l "A", ⟨2025, 1, 11, 9, 0⟩⟩ (s2l "x")
      (s2l "y")).2.2 =
      [CalCall.list (startOfEvent ⟨s2l "A", ⟨2025, 1, 11, 9, 0⟩⟩ (-360) (-360))
        (endOfEvent ⟨s2l "A", ⟨2025, 1, 11, 9, 0⟩⟩ (-360) (-360)) (s2l "A"),
       CalCall.insert
         (insertBodyOf ⟨s2l "A", ⟨2025, 1, 11, 9, 0⟩⟩ (-360) (-360) (s2l "x")
           (s2l "y")) true] ∧
    (insertBodyOf ⟨s2l "A", ⟨2025, 1, 11, 9, 0⟩⟩ (-360) (-360) (s2l "x")
        (s2l "y")).startDT =
      startOfEvent ⟨s2l "A", ⟨2025, 1, 11, 9, 0⟩⟩ (-360) (-360) ∧
    (insertBodyOf ⟨s2l "A", ⟨2025, 1, 11, 9, 0⟩⟩ (-360) (-360) (s2l "x")
        (s2l "y")).endDT =
      endOfEvent ⟨s2l "A", ⟨2025, 1, 11, 9, 0⟩⟩ (-360) (-360) ∧
    endOfEvent ⟨s2l "A", ⟨2025, 1, 11, 9, 0⟩⟩ (-360) (-360) =
      addMinutes (startOfEvent ⟨s2l "A", ⟨2025, 1, 11, 9, 0⟩⟩ (-360) (-360)) 60 ∧
    wallMin (endOfEvent ⟨s2l "A", ⟨2025, 1, 11, 9, 0⟩⟩ (-360) (-360)) =
      wallMin (startOfEvent ⟨s2l "A", ⟨2025, 1, 11, 9, 0⟩⟩ (-360) (-360)) + 60 ∧
    (endOfEvent ⟨s2l "A", ⟨2025, 1, 11, 9, 0⟩⟩ (-360) (-360)).utc =
      (startOfEvent ⟨s2l "A", ⟨2025, 1, 11, 9, 0⟩⟩ (-360) (-360)).utc + 60 :=
  claim_C7 Unit ⟨fun _ _ _ _ => [], fun st _ => some (0, st)⟩ ()
    (-360) (-360) ⟨s2l "A", ⟨2025, 1, 11, 9, 0⟩⟩ (s2l "x") (s2l "y") (by rfl)

/-- C10: the window start is obtained by interpreting the parsed naive
timestamp at the runtime's local offset and converting to America/Chicago:
its Chicago wall clock reads `parsed + (chiOff - localOff)` minutes, so it
equals the parsed time iff the two offsets agree, and otherwise is shifted
by exactly the offset difference.  The first calendar call of every
`create_calendar_event` run uses exactly this start. -/
theorem claim_C10 : ∀ (σ : Type) (cal : CalendarService σ) (st : σ)
    (localOff chiOff : Int) (ed : EventDetails) (e1 e2 : List Char),
    (∃ rest : List CalCall,
      (create_calendar_event cal st localOff chiOff ed e1 e2).2.2 =
        CalCall.list (startOfEvent ed localOff chiOff)
          (endOfEvent ed localOff chiOff) ed.event_name :: rest) ∧
    startOfEvent ed localOff chiOff =
      astimezoneNaive ed.event_time localOff chiOff ∧
    wallMin (startOfEvent ed localOff chiOff) =
      toMinutes ed.event_time + (chiOff - localOff) ∧
    (wallMin (startOfEvent ed localOff chiOff) =
      toMinutes ed.event_time ↔ chiOff = localOff) := by
  intro σ cal st localOff chiOff ed e1 e2
  refine ⟨?_, rfl,
    by simp [wallMin, startOfEvent, astimezoneNaive]; omega, ?_⟩
  · unfold create_calendar_event check_existing_event
    by_cases hdup : cal.listEvents st (startOfEvent ed localOff chiOff)
        (endOfEvent ed localOff chiOff) ed.event_name ≠ []
    · rw [if_pos hdup]
      exact ⟨[], rfl⟩
    · rw [if_neg hdup]
      cases hins : cal.insertEvent st (insertBodyOf ed localOff chiOff e1 e2) with
      | none => exact ⟨_, rfl⟩
      | some p => exact ⟨_, rfl⟩
  · constructor
    · intro h
      simp [wallMin, startOfEvent, astimezoneNaive] at h
      omega
    · intro h
      simp [wallMin, startOfEvent, astimezoneNaive, h]

/-! ### The message loop: claims C8 and C9 -/

theorem create_count {σ : Type} (cal : CalendarService σ) (st : σ)
    (localOff chiOff : Int) (ed : EventDetails) (e1 e2 : List Char) :
    insertOkCount (create_calendar_event cal st localOff chiOff ed e1 e2).2.2 =
      (if ((create_calendar_event cal st localOff chiOff ed e1 e2).1).isSome
        then 1 else 0) := by
  unfold create_calendar_event check_existing_event
  by_cases hdup : cal.listEvents st (startOfEvent ed localOff chiOff)
      (endOfEvent ed localOff chiOff) ed.event_name ≠ []
  · rw [if_pos hdup]
    rfl
  · rw [if_neg hdup]
    cases hins : cal.insertEvent st (insertBodyOf ed localOff chiOff e1 e2) with
    | none => rfl
    | some p => rfl

theorem processMessage_count {σ : Type} (gm : MailService)
    (cal : CalendarService σ) (localOff chiOff : Int) (e1 e2 : List Char)
    (st : σ) (mid : Nat) :
    (processMessage gm cal localOff chiOff e1 e2 st mid).1 =
      insertOkCount (processMessage gm cal localOff chiOff e1 e2 st mid).2.2 := by
  unfold processMessage
  cases hget : gm.getMessage mid with
  | none => rfl
  | some msg =>
    dsimp only
    cases hex : extract_from_msg msg with
    | none => rfl
    | some ed =>
      dsimp only
      have hc := create_count cal st localOff chiOff ed e1 e2
      cases hcr : create_calendar_event cal st localOff chiOff ed e1 e2 with
      | mk o q =>
        rw [hcr] at hc
        cases o with
        | none => simpa using hc.symm
        | some ev => simpa using hc.symm

theorem processAll_cons {σ : Type} (gm : MailService)
    (cal : CalendarService σ) (localOff chiOff : Int) (e1 e2 : List Char)
    (st : σ) (x : Nat) (rest : List Nat) :
    processAll gm cal localOff chiOff e1 e2 st (x :: rest) =
      ⟨(processMessage gm cal localOff chiOff e1 e2 st x).1 +
        (processAll gm cal localOff chiOff e1 e2
          (processMessage gm cal localOff chiOff e1 e2 st x).2.1 rest).count,
       (processAll gm cal localOff chiOff e1 e2
          (processMessage gm cal localOff chiOff e1 e2 st x).2.1 rest).st,
       (processMessage gm cal localOff chiOff e1 e2 st x).2.2 ++
        (processAll gm cal localOff chiOff e1 e2
          (processMessage gm cal localOff chiOff e1 e2 st x).2.1 rest).log⟩ :=
  rfl

theorem processAll_count {σ : Type} (gm : MailService)
    (cal : CalendarService σ) (localOff chiOff : Int) (e1 e2 : List Char) :
    ∀ (mids : List Nat) (st : σ),
    (processAll gm cal localOff chiOff e1 e2 st mids).count =
      insertOkCount (processAll gm cal localOff chiOff e1 e2 st mids).log := by
  intro mids
  induction mids with
  | nil => intro st; rfl
  | cons mid rest ih =>
    intro st
    rw [processAll_cons]
    unfold insertOkCount
    rw [List.countP_append]
    rw [processMessage_count gm cal localOff chiOff e1 e2 st mid]
    rw [ih]
    rfl

theorem processAll_append {σ : Type} (gm : MailService)
    (cal : CalendarService σ) (localOff chiOff : Int) (e1 e2 : List Char) :
    ∀ (xs ys : List Nat) (st : σ),
    processAll gm cal localOff chiOff e1 e2 st (xs ++ ys) =
      ⟨(processAll gm cal localOff chiOff e1 e2 st xs).count +
        (processAll gm cal localOff chiOff e1 e2
          (processAll gm cal localOff chiOff e1 e2 st xs).st ys).count,
       (processAll gm cal localOff chiOff e1 e2
          (processAll gm cal localOff chiOff e1 e2 st xs).st ys).st,
       (processAll gm cal localOff chiOff e1 e2 st xs).log ++
        (processAll gm cal localOff chiOff e1 e2
          (processAll gm cal localOff chiOff e1 e2 st xs).st ys).log⟩ := by
  intro xs
  induction xs with
  | nil => intro ys st; simp [processAll]
  | cons x xs ih =>
    intro ys st
    rw [show (x :: xs) ++ ys = x :: (xs ++ ys) from rfl]
    rw [processAll_cons gm cal localOff chiOff e1 e2 st x (xs ++ ys)]
    rw [processAll_cons gm cal localOff chiOff e1 e2 st x xs]
    rw [ih ys (processMessage gm cal localOff chiOff e1 e2 st x).2.1]
    dsimp only
    rw [Nat.add_assoc, List.append_assoc]

/-- C8 (counterexample): when the initial list-retrieval returns no
messages the run exits early and the final summary count is NOT reported
(modelled as the `none` summary), contradicting "this summary count is
always reported". -/
theorem claim_C8_counterexample :
    (main_run (⟨fun _ _ => [], fun _ => none⟩ : MailService)
      (⟨fun _ _ _ _ => [], fun st _ => some (0, st)⟩ : CalendarService Unit)
      () (s2l "a") (s2l "b") (s2l "q") 6 (-360) (-360)).1 = none := by rfl

/-- C8 (amended): every run whose initial list-retrieval yields a
non-empty message list ends by reporting a single final count, equal to
the number of successful inserts (the events actually created); when the
retrieval yields no messages the run terminates early without reporting
the summary count. -/
theorem claim_C8 : ∀ (σ : Type) (gm : MailService) (cal : CalendarService σ)
    (st0 : σ) (e1 e2 q : List Char) (mm : Nat) (localOff chiOff : Int),
    (get_confirmation_emails gm q mm ≠ [] →
      (main_run gm cal st0 e1 e2 q mm localOff chiOff).1 =
        some (main_run gm cal st0 e1 e2 q mm localOff chiOff).2.count ∧
      (main_run gm cal st0 e1 e2 q mm localOff chiOff).2.count =
        insertOkCount (main_run gm cal st0 e1 e2 q mm localOff chiOff).2.log) ∧
    (get_confirmation_emails gm q mm = [] →
      (main_run gm cal st0 e1 e2 q mm localOff chiOff).1 = none) := by
  intro σ gm cal st0 e1 e2 q mm localOff chiOff
  constructor
  · intro hne
    unfold main_run
    rw [if_neg hne]
    exact ⟨rfl, processAll_count gm cal localOff chiOff e1 e2 _ st0⟩
  · intro heq
    unfold main_run
    rw [if_pos heq]

/-- C8 witness: one message whose fetch fails; the run still reports a
summary count of 0, equal to the number of successful inserts. -/
theorem claim_C8_witness :
    (main_run (⟨fun _ _ => [0], fun _ => none⟩ : MailService)
      (⟨fun _ _ _ _ => [], fun st _ => some (0, st)⟩ : CalendarService Unit)
      () (s2l "a") (s2l "b") (s2l "q") 6 (-360) (-360)).1 =
      some (main_run (⟨fun _ _ => [0], fun _ => none⟩ : MailService)
        (⟨fun _ _ _ _ => [], fun st _ => some (0, st)⟩ : CalendarService Unit)
        () (s2l "a") (s2l "b") (s2l "q") 6 (-360) (-360)).2.count :=
  ((claim_C8 Unit (⟨fun _ _ => [0], fun _ => none⟩ : MailService)
    (⟨fun _ _ _ _ => [], fun st _ => some (0, st)⟩ : CalendarService Unit)
    () (s2l "a") (s2l "b") (s2l "q") 6 (-360) (-360)).1 (by decide)).1

/-- A message that fails at fetch, at extraction, or at the duplicate
check contributes 0 to the count and leaves the calendar state unchanged. -/
theorem processMessage_skip {σ : Type} (gm : MailService)
    (cal : CalendarService σ) (localOff chiOff : Int) (e1 e2 : List Char)
    (st : σ) (mid : Nat)
    (hskip : gm.getMessage mid = none ∨
      (∃ msg, gm.getMessage mid = some msg ∧ extract_from_msg msg = none) ∨
      (∃ msg ed, gm.getMessage mid = some msg ∧
        extract_from_msg msg = some ed ∧
        cal.listEvents st (startOfEvent ed localOff chiOff)
          (endOfEvent ed localOff chiOff) ed.event_name ≠ [])) :
    (processMessage gm cal localOff chiOff e1 e2 st mid).1 = 0 ∧
    (processMessage gm cal localOff chiOff e1 e2 st mid).2.1 = st := by
  unfold processMessage
  rcases hskip with hf | ⟨msg, hg, he⟩ | ⟨msg, ed, hg, he, hd⟩
  · rw [hf]
    exact ⟨rfl, rfl⟩
  · rw [hg]
    dsimp only
    rw [he]
    exact ⟨rfl, rfl⟩
  · rw [hg]
    dsimp only
    rw [he]
    dsimp only
    have hcreate : create_calendar_event cal st localOff chiOff ed e1 e2 =
        (none, st,
          [CalCall.list (startOfEvent ed localOff chiOff)
            (endOfEvent ed localOff chiOff) ed.event_name]) := by
      unfold create_calendar_event check_existing_event
      rw [if_pos hd]
    rw [hcreate]
    exact ⟨rfl, rfl⟩

/-- C9: a per-message failure (fetch failure, format mismatch or parse
failure in extraction, or the duplicate skip) is converted into
skip-and-continue: the message contributes 0 to `events_created`, leaves
the calendar state unchanged, and removing it from the batch changes
neither the final count nor the final state — the remaining messages are
processed exactly as before. -/
theorem claim_C9 : ∀ (σ : Type) (gm : MailService) (cal : CalendarService σ)
    (localOff chiOff : Int) (e1 e2 : List Char) (st0 : σ)
    (pre suf : List Nat) (mid : Nat),
    (gm.getMessage mid = none ∨
      (∃ msg, gm.getMessage mid = some msg ∧ extract_from_msg msg = none) ∨
      (∃ msg ed, gm.getMessage mid = some msg ∧
        extract_from_msg msg = some ed ∧
        cal.listEvents (processAll gm cal localOff chiOff e1 e2 st0 pre).st
          (startOfEvent ed localOff chiOff)
          (endOfEvent ed localOff chiOff) ed.event_name ≠ [])) →
    (processMessage gm cal localOff chiOff e1 e2
      (processAll gm cal localOff chiOff e1 e2 st0 pre).st mid).1 = 0 ∧
    (processAll gm cal localOff chiOff e1 e2 st0 (pre ++ mid :: suf)).count =
      (processAll gm cal localOff chiOff e1 e2 st0 (pre ++ suf)).count ∧
    (processAll gm cal localOff chiOff e1 e2 st0 (pre ++ mid :: suf)).st =
      (processAll gm cal localOff chiOff e1 e2 st0 (pre ++ suf)).st := by
  intro σ gm cal localOff chiOff e1 e2 st0 pre suf mid hskip
  have hsk := processMessage_skip gm cal localOff chiOff e1 e2
    (processAll gm cal localOff chiOff e1 e2 st0 pre).st mid hskip
  have hcons : processAll gm cal localOff chiOff e1 e2
      (processAll gm cal localOff chiOff e1 e2 st0 pre).st (mid :: suf) =
      ⟨(processAll gm cal localOff chiOff e1 e2
          (processAll gm cal localOff chiOff e1 e2 st0 pre).st suf).count,
       (processAll gm cal localOff chiOff e1 e2
          (processAll gm cal localOff chiOff e1 e2 st0 pre).st suf).st,
       (processMessage gm cal localOff chiOff e1 e2
          (processAll gm cal localOff chiOff e1 e2 st0 pre).st mid).2.2 ++
        (processAll gm cal localOff chiOff e1 e2
          (processAll gm cal localOff chiOff e1 e2 st0 pre).st suf).log⟩ := by
    rw [processAll_cons, hsk.1, hsk.2, Nat.zero_add]
  refine ⟨hsk.1, ?_, ?_⟩
  · rw [processAll_append gm cal localOff chiOff e1 e2 pre (mid :: suf) st0,
      processAll_append gm cal localOff chiOff e1 e2 pre suf st0, hcons]
  · rw [processAll_append gm cal localOff chiOff e1 e2 pre (mid :: suf) st0,
      processAll_append gm cal localOff chiOff e1 e2 pre suf st0, hcons]

/-- C9 witness: a batch of one message whose fetch fails. -/
theorem claim_C9_witness :
    (processMessage (⟨fun _ _ => [0], fun _ => none⟩ : MailService)
      (⟨fun _ _ _ _ => [], fun st _ => some (0, st)⟩ : CalendarService Unit)
      (-360) (-360) (s2l "x") (s2l "y")
      (processAll (⟨fun _ _ => [0], fun _ => none⟩ : MailService)
        (⟨fun _ _ _ _ => [], fun st _ => some (0, st)⟩ : CalendarService Unit)
        (-360) (-360) (s2l "x") (s2l "y") () []).st 0).1 = 0 :=
  (claim_C9 Unit (⟨fun _ _ => [0], fun _ => none⟩ : MailService)
    (⟨fun _ _ _ _ => [], fun st _ => some (0, st)⟩ : CalendarService Unit)
    (-360) (-360) (s2l "x") (s2l "y") () [] [] 0 (Or.inl (by rfl))).1

/-! ### Claim C6: round-tripping `strptime`/`strftime` -/

theorem buildDT_valid {f : RawFields} {d : DateTime}
    (h : buildDT f = some d) : ValidDT d := by
  unfold buildDT at h
  by_cases hc : 1 ≤ f.year ∧ f.year ≤ 9999 ∧ 1 ≤ f.month ∧ f.month ≤ 12 ∧
      1 ≤ f.day ∧ f.day ≤ daysInMonth f.year f.month ∧
      hourFrom f.hr12 f.pm ≤ 23 ∧ f.minute ≤ 59
  · rw [if_pos hc] at h
    injection h with h2
    rw [← h2]
    exact hc
  · rw [if_neg hc] at h
    cases h

theorem strptime_valid {fmt : List FmtTok} {s : List Char} {d : DateTime}
    (h : strptime fmt s = some d) : ValidDT d := by
  unfold strptime at h
  cases hr : runToks fmt s f0 with
  | none => rw [hr] at h; cases h
  | some p =>
    rw [hr] at h
    cases p with
    | mk f rest =>
      cases rest with
      | nil => exact buildDT_valid h
      | cons c cs => cases h

theorem digit_facts : ∀ j, j < 10 →
    isDig (Char.ofNat (48 + j)) ∧ digitVal (Char.ofNat (48 + j)) = j ∧
    isSpacePy (Char.ofNat (48 + j)) = false := by decide

theorem digitChar_isDig (k : Nat) : isDig (digitChar k) :=
  (digit_facts (k % 10) (Nat.mod_lt k (by omega))).1

theorem digitVal_digitChar (k : Nat) : digitVal (digitChar k) = k % 10 :=
  (digit_facts (k % 10) (Nat.mod_lt k (by omega))).2.1

theorem digitChar_not_space (k : Nat) : isSpacePy (digitChar k) = false :=
  (digit_facts (k % 10) (Nat.mod_lt k (by omega))).2.2

theorem noLead_cons {c : Char} {l : List Char} (h : isSpacePy c = false) :
    (c :: l).dropWhile isSpacePy = c :: l := by
  rw [List.dropWhile_cons]
  simp [h]

theorem noLead_pad2 (n : Nat) (r : List Char) :
    (pad2 n ++ r).dropWhile isSpacePy = pad2 n ++ r :=
  noLead_cons (digitChar_not_space _)

theorem noLead_pad4 (n : Nat) (r : List Char) :
    (pad4 n ++ r).dropWhile isSpacePy = pad4 n ++ r :=
  noLead_cons (digitChar_not_space _)

theorem noLead_monFull (m : Nat) (h1 : 1 ≤ m) (h2 : m ≤ 12) (r : List Char) :
    (monNameFull m ++ r).dropWhile isSpacePy = monNameFull m ++ r := by
  interval_cases m <;> exact noLead_cons (by decide)

theorem noLead_monAbbr (m : Nat) (h1 : 1 ≤ m) (h2 : m ≤ 12) (r : List Char) :
    (monNameAbbr m ++ r).dropWhile isSpacePy = monNameAbbr m ++ r := by
  interval_cases m <;> exact noLead_cons (by decide)

theorem noLead_ampm (d : DateTime) :
    ((if 12 ≤ d.hour then ['P', 'M'] else ['A', 'M']) : List Char).dropWhile
        isSpacePy =
      (if 12 ≤ d.hour then ['P', 'M'] else ['A', 'M']) := by
  by_cases h : 12 ≤ d.hour
  · rw [if_pos h]; exact noLead_cons (by decide)
  · rw [if_neg h]; exact noLead_cons (by decide)

theorem runToks_step {t : FmtTok} {ts : List FmtTok} {s s' : List Char}
    {f f' : RawFields} (h : matchToken t s f = some (f', s')) :
    runToks (t :: ts) s f = runToks ts s' f' := by
  show (match matchToken t s f with
    | some (f', s') => runToks ts s' f'
    | none => none) = runToks ts s' f'
  rw [h]

theorem tok_lit (c : Char) (s : List Char) (f : RawFields) :
    matchToken (.lit c) (c :: s) f = some (f, s) := by
  show (if c = c then some (f, s) else none) = some (f, s)
  rw [if_pos rfl]

theorem tok_ws {l : List Char} (hl : l.dropWhile isSpacePy = l)
    (f : RawFields) : matchToken .ws (' ' :: l) f = some (f, l) := by
  show (if isSpacePy ' ' then some (f, l.dropWhile isSpacePy) else none) =
    some (f, l)
  rw [if_pos (by decide), hl]

theorem tok_dayFull (w : Nat) (hw : w < 7) (s : List Char) (f : RawFields) :
    matchToken .dayFull (dayNameFull w ++ s) f =
      some ({ f with wd := w }, s) := by
  interval_cases w <;> rfl

theorem tok_dayAbbr (w : Nat) (hw : w < 7) (s : List Char) (f : RawFields) :
    matchToken .dayAbbr (dayNameAbbr w ++ s) f =
      some ({ f with wd := w }, s) := by
  interval_cases w <;> rfl

theorem tok_monFull (m : Nat) (h1 : 1 ≤ m) (h2 : m ≤ 12) (s : List Char)
    (f : RawFields) :
    matchToken .monFull (monNameFull m ++ s) f =
      some ({ f with month := m }, s) := by
  interval_cases m <;> rfl

theorem tok_monAbbr (m : Nat) (h1 : 1 ≤ m) (h2 : m ≤ 12) (s : List Char)
    (f : RawFields) :
    matchToken .monAbbr (monNameAbbr m ++ s) f =
      some ({ f with month := m }, s) := by
  interval_cases m <;> rfl

theorem tok_dayNum (dv : Nat) (h1 : 1 ≤ dv) (h2 : dv ≤ 31) (s : List Char)
    (f : RawFields) :
    matchToken .dayNum (pad2 dv ++ s) f = some ({ f with day := dv }, s) := by
  interval_cases dv <;> rfl

theorem tok_hour12 (hv : Nat) (h1 : 1 ≤ hv) (h2 : hv ≤ 12) (s : List Char)
    (f : RawFields) :
    matchToken .hour12 (pad2 hv ++ s) f =
      some ({ f with hr12 := hv }, s) := by
  interval_cases hv <;> rfl

theorem tok_minNum (mv : Nat) (h2 : mv ≤ 59) (s : List Char)
    (f : RawFields) :
    matchToken .minNum (pad2 mv ++ s) f =
      some ({ f with minute := mv }, s) := by
  interval_cases mv <;> rfl

theorem tok_year4 (y : Nat) (hy1 : 1000 ≤ y) (hy2 : y ≤ 9999) (s : List Char)
    (f : RawFields) :
    matchToken .year4 (pad4 y ++ s) f = some ({ f with year := y }, s) := by
  have hmy : matchYear (pad4 y ++ s) = some (y, s) := by
    show matchYear (digitChar (y / 1000 % 10) :: digitChar (y / 100 % 10) ::
      digitChar (y / 10 % 10) :: digitChar (y % 10) :: s) = some (y, s)
    unfold matchYear
    dsimp only
    rw [if_pos ⟨digitChar_isDig _, digitChar_isDig _, digitChar_isDig _,
      digitChar_isDig _⟩]
    rw [digitVal_digitChar, digitVal_digitChar, digitVal_digitChar,
      digitVal_digitChar]
    have hval : ((y / 1000 % 10 % 10 * 10 + y / 100 % 10 % 10) * 10 +
        y / 10 % 10 % 10) * 10 + y % 10 % 10 = y := by omega
    rw [hval]
  show (matchYear (pad4 y ++ s)).map _ = _
  rw [hmy]
  rfl

theorem tok_ampm (d : DateTime) (f : RawFields) :
    matchToken .ampm
      (if 12 ≤ d.hour then ['P', 'M'] else ['A', 'M']) f =
      some ({ f with pm := decide (12 ≤ d.hour) }, []) := by
  by_cases h : 12 ≤ d.hour
  · rw [if_pos h]
    simp only [decide_eq_true h]
    rfl
  · rw [if_neg h]
    simp only [decide_eq_false h]
    rfl

theorem hour_roundtrip : ∀ hh, hh < 24 →
    hourFrom (hourDisplay hh) (decide (12 ≤ hh)) = hh := by decide

theorem hourDisplay_bounds (hh : Nat) :
    1 ≤ hourDisplay hh ∧ hourDisplay hh ≤ 12 := by
  unfold hourDisplay
  by_cases h : hh % 12 = 0
  · rw [if_pos h]; omega
  · rw [if_neg h]
    have : hh % 12 < 12 := Nat.mod_lt hh (by omega)
    omega

theorem daysInMonth_le_31 (y m : Nat) : daysInMonth y m ≤ 31 := by
  unfold daysInMonth
  by_cases h2 : m = 2
  · rw [if_pos h2]
    by_cases hl : isLeap y
    · rw [if_pos hl]; omega
    · rw [if_neg hl]; omega
  · rw [if_neg h2]
    by_cases h30 : m = 4 ∨ m = 6 ∨ m = 9 ∨ m = 11
    · rw [if_pos h30]; omega
    · rw [if_neg h30]

theorem emit_lit (d : DateTime) (c : Char) : emitTok d (.lit c) = [c] := rfl

theorem emit_ws (d : DateTime) : emitTok d .ws = [' '] := rfl

theorem emit_dayNum (d : DateTime) : emitTok d .dayNum = pad2 d.day := rfl

theorem emit_year4 (d : DateTime) : emitTok d .year4 = pad4 d.year := rfl

theorem emit_hour12 (d : DateTime) :
    emitTok d .hour12 = pad2 (hourDisplay d.hour) := rfl

theorem emit_minNum (d : DateTime) : emitTok d .minNum = pad2 d.minute := rfl

theorem emit_ampm (d : DateTime) :
    emitTok d .ampm = (if 12 ≤ d.hour then ['P', 'M'] else ['A', 'M']) := rfl

theorem strptime_strftime_fmtOf (dTok mTok : FmtTok) (d : DateTime)
    (hv : ValidDT d) (hy : 1000 ≤ d.year)
    (hDay : ∀ (s : List Char) (f : RawFields),
      matchToken dTok (emitTok d dTok ++ s) f =
        some ({ f with wd := weekdayOf d }, s))
    (hMon : ∀ (s : List Char) (f : RawFields),
      matchToken mTok (emitTok d mTok ++ s) f =
        some ({ f with month := d.month }, s))
    (hMonLead : ∀ r : List Char,
      (emitTok d mTok ++ r).dropWhile isSpacePy = emitTok d mTok ++ r) :
    strptime (fmtOf dTok mTok) (strftime (fmtOf dTok mTok) d) = some d := by
  obtain ⟨hy1, hy2, hm1, hm2, hd1, hd2, hh, hmin⟩ := hv
  have hrun : runToks (fmtOf dTok mTok) (strftime (fmtOf dTok mTok) d) f0 =
      some (⟨weekdayOf d, d.month, d.day, d.year, hourDisplay d.hour,
        d.minute, decide (12 ≤ d.hour)⟩, []) := by
    simp only [fmtOf, strftime, emit_lit, emit_ws, emit_dayNum, emit_year4,
      emit_hour12, emit_minNum, emit_ampm, List.cons_append, List.nil_append,
      List.append_nil]
    rw [runToks_step (hDay _ _)]
    rw [runToks_step (tok_lit ',' _ _)]
    rw [runToks_step (tok_ws (hMonLead _) _)]
    rw [runToks_step (hMon _ _)]
    rw [runToks_step (tok_ws (noLead_pad2 _ _) _)]
    rw [runToks_step (tok_dayNum d.day hd1
      (le_trans hd2 (daysInMonth_le_31 d.year d.month)) _ _)]
    rw [runToks_step (tok_lit ',' _ _)]
    rw [runToks_step (tok_ws (noLead_pad4 _ _) _)]
    rw [runToks_step (tok_year4 d.year hy hy2 _ _)]
    rw [runToks_step (tok_ws (noLead_pad2 _ _) _)]
    rw [runToks_step (tok_hour12 (hourDisplay d.hour)
      (hourDisplay_bounds d.hour).1 (hourDisplay_bounds d.hour).2 _ _)]
    rw [runToks_step (tok_lit ':' _ _)]
    rw [runToks_step (tok_minNum d.minute hmin _ _)]
    rw [runToks_step (tok_ws (noLead_ampm d) _)]
    rw [runToks_step (tok_ampm d _)]
    rfl
  unfold strptime
  rw [hrun]
  dsimp only
  unfold buildDT
  dsimp only
  rw [hour_roundtrip d.hour (by omega)]
  rw [if_pos ⟨hy1, hy2, hm1, hm2, hd1, hd2, hh, hmin⟩]

/-- C6 (counterexample): `"Saturday, January 11, 2025 9:00 AM"` parses
successfully with the first format, but reformatting with the same format
zero-pads `%I` and yields `"... 09:00 AM"`, not the original string. -/
theorem claim_C6_counterexample :
    strptime fmt1 (s2l "Saturday, January 11, 2025 9:00 AM") =
      some ⟨2025, 1, 11, 9, 0⟩ ∧
    strftime fmt1 ⟨2025, 1, 11, 9, 0⟩ =
      s2l "Saturday, January 11, 2025 09:00 AM" ∧
    strftime fmt1 ⟨2025, 1, 11, 9, 0⟩ ≠
      s2l "Saturday, January 11, 2025 9:00 AM" :=
  ⟨by rfl, by rfl, by decide⟩

/-- C6 (amended): for each of the four accepted formats, parsing then
reformatting reproduces the parsed timestamp's canonical rendering, which
parses back to the same timestamp (for years with four significant digits;
C libraries disagree on padding `%Y` below year 1000).  The original string
is reproduced exactly only when it is already in this canonical
(zero-padded) form. -/
theorem claim_C6 : ∀ fmt, fmt ∈ formats → ∀ (s : List Char) (d : DateTime),
    strptime fmt s = some d → 1000 ≤ d.year →
    strptime fmt (strftime fmt d) = some d := by
  intro fmt hmem s d hparse hy
  have hv := strptime_valid hparse
  have hw : weekdayOf d < 7 := Nat.mod_lt _ (by omega)
  have hm1 : 1 ≤ d.month := hv.2.2.1
  have hm2 : d.month ≤ 12 := hv.2.2.2.1
  have hfmt : fmt = fmt1 ∨ fmt = fmt2 ∨ fmt = fmt3 ∨ fmt = fmt4 := by
    simpa [formats] using hmem
  rcases hfmt with h | h | h | h <;> subst h
  · exact strptime_strftime_fmtOf .dayFull .monFull d hv hy
      (fun s f => tok_dayFull (weekdayOf d) hw s f)
      (fun s f => tok_monFull d.month hm1 hm2 s f)
      (fun r => noLead_monFull d.month hm1 hm2 r)
  · exact strptime_strftime_fmtOf .dayFull .monAbbr d hv hy
      (fun s f => tok_dayFull (weekdayOf d) hw s f)
      (fun s f => tok_monAbbr d.month hm1 hm2 s f)
      (fun r => noLead_monAbbr d.month hm1 hm2 r)
  · exact strptime_strftime_fmtOf .dayAbbr .monFull d hv hy
      (fun s f => tok_dayAbbr (weekdayOf d) hw s f)
      (fun s f => tok_monFull d.month hm1 hm2 s f)
      (fun r => noLead_monFull d.month hm1 hm2 r)
  · exact strptime_strftime_fmtOf .dayAbbr .monAbbr d hv hy
      (fun s f => tok_dayAbbr (weekdayOf d) hw s f)
      (fun s f => tok_monAbbr d.month hm1 hm2 s f)
      (fun r => noLead_monAbbr d.month hm1 hm2 r)

/-- C6 witness: round-tripping the canonical scenario string through the
first format. -/
theorem claim_C6_witness :
    strptime fmt1 (strftime fmt1 ⟨2025, 1, 11, 9, 0⟩) =
      some ⟨2025, 1, 11, 9, 0⟩ :=
  claim_C6 fmt1 (by simp [formats])
    (s2l "Saturday, January 11, 2025 09:00 AM") ⟨2025, 1, 11, 9, 0⟩
    (by rfl) (by decide)
